import Mathlib

/-!
Verification of the multi-index federated search and result-aggregation
pipeline of `open_ai_azure.py` (`search_documents` and its inner
`search_single_index`).  Text is modelled as `List Char`; the Python dict
`all_sources` is modelled as an association list with Python assignment
semantics (update in place, else append); the nondeterministic completion
order of the thread pool is modelled by quantifying over permutations of
the collected result list.
-/

namespace IPMagiX

/-- Text is modelled as a list of characters. -/
abbrev Str := List Char

/-- One citation returned by the retrieval-augmented completion service:
only its `title` field is consumed by the aggregation code. -/
structure Citation where
  title : Str
deriving DecidableEq

/-- One choice of a completion payload: the generated `content` string and
the citation list found at `message.context.citations` (empty when the
field is absent, matching the `.get(..., [])` defaults). -/
structure Choice where
  content : Str
  citations : List Citation
deriving DecidableEq

/-- A parsed completion payload: its list of choices. -/
abbrev Payload := List Choice

/-- Boolean prefix test on character lists. -/
def isPrefixB : Str → Str → Bool
  | [], _ => true
  | _ :: _, [] => false
  | a :: as, b :: bs => a = b && isPrefixB as bs

/-- Substring containment: `containsSub needle hay` models Python's
`needle in hay` on strings. -/
def containsSub (needle : Str) : Str → Bool
  | [] => isPrefixB needle []
  | c :: t => isPrefixB needle (c :: t) || containsSub needle t

/-- Lower-casing, modelling `str.lower()` (the phrases involved are ASCII). -/
def lowerStr (s : Str) : Str := s.map Char.toLower

/-- The fixed negative-phrase list from `search_documents`. -/
def negativePhrases : List Str :=
  ["not found in the retrieved data".toList,
   "couldn't find relevant information".toList,
   "don't have information about".toList,
   "no information available".toList,
   "no relevant information".toList,
   "no data on".toList,
   "not mentioned in".toList]

/-- `any(phrase.lower() in content.lower() for phrase in negative_phrases)`. -/
def isNegativeResponse (content : Str) : Bool :=
  negativePhrases.any fun phrase => containsSub (lowerStr phrase) (lowerStr content)

/-- Leading decimal digits of a string, and the remainder (the `\d+` part
of the marker regex). -/
def takeDigits : Str → (List Char × Str)
  | [] => ([], [])
  | c :: t =>
    if c.isDigit then
      let p := takeDigits t
      (c :: p.1, p.2)
    else ([], c :: t)

/-- Numeric value of a digit string, most significant digit first. -/
def digitsToNat (ds : List Char) : Nat :=
  ds.foldl (fun acc c => acc * 10 + (c.toNat - 48)) 0

/-- A match of the regex `\[doc(\d+)\]` starting at the head of the string,
returning the captured number. -/
def matchDocAt : Str → Option Nat
  | '[' :: 'd' :: 'o' :: 'c' :: rest =>
    match takeDigits rest with
    | ([], _) => none
    | (ds, ']' :: _) => some (digitsToNat ds)
    | (_, _) => none
  | _ => none

/-- `re.findall(r'\[doc(\d+)\]', text)` as integers.  Since no match of
this pattern can start strictly inside another match (every match starts
with `[` and contains no further `[`), collecting a match at every
position where one starts coincides with `findall`'s non-overlapping
scan. -/
def extract_doc_numbers : Str → List Nat
  | [] => []
  | c :: t =>
    match matchDocAt (c :: t) with
    | some n => n :: extract_doc_numbers t
    | none => extract_doc_numbers t

/-- The `[docK]` numbers of a choice's content. -/
def choiceNumbers (c : Choice) : List Nat := extract_doc_numbers c.content

/-- `has_doc_pattern`: the findall result is non-empty. -/
def hasDocPatternB (c : Choice) : Bool := decide (choiceNumbers c ≠ [])

/-- `is_negative_response` for a choice. -/
def isNegativeB (c : Choice) : Bool := isNegativeResponse c.content

/-- `has_citations`: a doc pattern is present and the citation list is
non-empty. -/
def hasCitationsB (c : Choice) : Bool :=
  hasDocPatternB c && decide (c.citations ≠ [])

/-- A choice is appended to `valid_results` iff
`has_citations and not is_negative_response`. -/
def contributesB (c : Choice) : Bool := hasCitationsB c && !(isNegativeB c)

/-- Everything after the first occurrence of `sep`:
`s.split(sep, 1)[1]` when `sep` occurs in `s`. -/
def dropThroughFirst (sep : Char) : Str → Str
  | [] => []
  | c :: t => if c = sep then t else dropThroughFirst sep t

/-- The title transformation at lines 198-200:
`if file_title and '_' in file_title: file_title = file_title.split('_', 1)[1]`. -/
def storedTitle (fileTitle : Str) : Str :=
  if fileTitle ≠ [] ∧ '_' ∈ fileTitle then dropThroughFirst '_' fileTitle
  else fileTitle

/-- Decimal digit character. -/
def digitChar (d : Nat) : Char := Char.ofNat (48 + d)

/-- Decimal rendering of a natural number with explicit fuel (the fuel
`n + 1` always suffices), kept structural so that it reduces in the
kernel. -/
def natToStrAux : Nat → Nat → Str
  | 0, _ => []
  | fuel + 1, n =>
    if n < 10 then [digitChar n]
    else natToStrAux fuel (n / 10) ++ [digitChar (n % 10)]

/-- Decimal rendering of a natural number, modelling Python's `str(K)`
inside the f-string key. -/
def natToStr (n : Nat) : Str := natToStrAux (n + 1) n

/-- The compound source-map key `f"{doc_id}_{number}"`. -/
def mkKey (docId : Str) (n : Nat) : Str := docId ++ '_' :: natToStr n

/-- The source map `all_sources`, as an association list. -/
abbrev SourceMap := List (Str × Str)

/-- Python dict assignment `m[k] = v`: update the value in place when the
key exists, otherwise append the new binding. -/
def dictInsert (m : SourceMap) (k v : Str) : SourceMap :=
  if m.any (fun p => p.1 = k) then
    m.map fun p => if p.1 = k then (k, v) else p
  else m ++ [(k, v)]

/-- Python dict lookup `m.get(k)`. -/
def dictGet (m : SourceMap) (k : Str) : Option Str :=
  (m.find? fun p => p.1 = k).map Prod.snd

/-- The source-map entries produced by one choice of one document's result
(lines 188-203): only when a doc pattern is present and the citation list
is non-empty, and only for marker values whose 0-based index
`number - 1` satisfies `0 <= index < len(all_citations)`. -/
def choiceEntries (docId : Str) (c : Choice) : List (Str × Str) :=
  if choiceNumbers c ≠ [] ∧ c.citations ≠ [] then
    (choiceNumbers c).filterMap fun n =>
      if 1 ≤ n ∧ n - 1 < c.citations.length then
        some (mkKey docId n, storedTitle ((c.citations.getD (n - 1) ⟨[]⟩).title))
      else none
  else []

/-- Insert a list of entries into the source map, left to right. -/
def insertEntries (m : SourceMap) (es : List (Str × Str)) : SourceMap :=
  es.foldl (fun m e => dictInsert m e.1 e.2) m

/-- The `(doc_id, content)` pair a choice appends to `valid_results`. -/
def choiceValid (docId : Str) (c : Choice) : List (Str × Str) :=
  if contributesB c then [(docId, c.content)] else []

/-- The content a choice appends to `collected_results`. -/
def choiceCollected (c : Choice) : List Str :=
  if contributesB c then [c.content] else []

/-- The blank-line separator appended after each contributing content. -/
def sepNl : Str := ['\n', '\n']

/-- The text a choice appends to `combined_answer`. -/
def choiceText (c : Choice) : Str :=
  if contributesB c then c.content ++ sepNl else []

/-- The mutable state threaded through the processing loop:
`all_sources`, `valid_results`, `collected_results`, `combined_answer`. -/
structure AggState where
  sources : SourceMap
  valid : List (Str × Str)
  collected : List Str
  combined : Str
deriving DecidableEq

/-- Processing of one choice (the body of the `for choice in ...` loop):
citation entries are stored first, then the choice is appended to the
valid results when it contributes. -/
def processChoice (docId : Str) (st : AggState) (c : Choice) : AggState :=
  { sources := insertEntries st.sources (choiceEntries docId c),
    valid := st.valid ++ choiceValid docId c,
    collected := st.collected ++ choiceCollected c,
    combined := st.combined ++ choiceText c }

/-- Processing of one `(doc_id, completion)` result: fold over its choices. -/
def processResult (st : AggState) (r : Str × Payload) : AggState :=
  r.2.foldl (processChoice r.1) st

/-- The initial loop state. -/
def initState : AggState := ⟨[], [], [], []⟩

/-- The state after processing every collected result. -/
def aggregateState (rs : List (Str × Payload)) : AggState :=
  rs.foldl processResult initState

/-- Python whitespace characters stripped by `str.strip()`. -/
def isPySpace (c : Char) : Bool :=
  c = ' ' || c = '\t' || c = '\n' || c = '\x0d' || c = '\x0b' || c = '\x0c'

/-- `str.strip()`: drop leading and trailing whitespace. -/
def pyStrip (s : Str) : Str :=
  ((s.dropWhile isPySpace).reverse.dropWhile isPySpace).reverse

/-- Fallback answer when no result has real citations (line 222). -/
def noInfoMsg : Str :=
  "I don't have information about this topic in the knowledge base. Please try a different question.".toList

/-- Fallback answer when every per-document call failed (line 132). -/
def noRelevantMsg : Str :=
  "I couldn't find relevant information in the documents.".toList

/-- Fallback answer when there are no documents to search (lines 33, 114). -/
def noDocsMsg : Str :=
  "I don't have any relevant documents to search through.".toList

/-- The result-classification and aggregation stage (lines 134-224),
applied to the collected `all_results`: the combined answer is stripped
when some result contributed, otherwise the no-information fallback is
returned; the accumulated source map is returned in both cases. -/
def processResults (rs : List (Str × Payload)) : Str × SourceMap :=
  let st := aggregateState rs
  if st.valid = [] then (noInfoMsg, st.sources)
  else (pyStrip st.combined, st.sources)

/-- Collection of fan-out results (lines 121-128): results whose
completion is `None` (a failure marker) are dropped. -/
def collectResults (raw : List (Str × Option Payload)) : List (Str × Payload) :=
  raw.filterMap fun r => r.2.map fun p => (r.1, p)

/-- The pipeline from collected raw results to the returned pair
(lines 119-224): a distinct fallback when no result survived collection. -/
def searchPipeline (raw : List (Str × Option Payload)) : Str × SourceMap :=
  let allResults := collectResults raw
  if allResults = [] then (noRelevantMsg, [])
  else processResults allResults

/-- The outcome of the underlying retrieval-augmented completion call on
one index: a payload, or a raised transport/service error (the
`Exception` caught at line 104), carried as an error message. -/
abbrev CallOutcome := Except Str Payload

/-- The deterministic index-name template `f"index-doc-{doc_id}"`. -/
def indexName (docId : Str) : Str := "index-doc-".toList ++ docId

/-- `search_single_index` (lines 65-106): issue the completion call on the
document's index; on success return the payload, on any raised error
return the document id paired with `None`.  The function is total: the
exception is absorbed, never propagated. -/
def search_single_index (call : Str → CallOutcome) (docId : Str) :
    Str × Option Payload :=
  match call (indexName docId) with
  | Except.ok p => (docId, some p)
  | Except.error _ => (docId, none)

/-- The fan-out executor (lines 119-128): one `search_single_index`
invocation per resolved document id; the collected sequence (here in
submission order — completion-order nondeterminism is modelled by
quantifying over permutations downstream). -/
def executeFanOut (call : Str → CallOutcome) (docIds : List Str) :
    List (Str × Option Payload) :=
  docIds.map (search_single_index call)

/-- A persisted row of the `ipx_documents` table, restricted to the
columns the pipeline reads. -/
structure DocRecord where
  id : Nat
  compound_id : Str
  status : Str
deriving DecidableEq

/-- The query
`SELECT id FROM ipx_documents WHERE compound_id = ? AND status = 'indexed'`
(lines 24-28) followed by `str(result['id'])`, over a modelled table. -/
def selectIndexedDocIds (store : List DocRecord) (compoundId : Str) : List Str :=
  (store.filter fun r => r.compound_id = compoundId ∧ r.status = "indexed".toList).map
    fun r => natToStr r.id

/-- Index resolution (lines 19-33): a non-empty explicit list wins; an
empty or absent list falls back to the compound's indexed documents when
a truthy compound id is given (Python `if compound_id:` — the empty
string is falsy); `none` signals the early return at line 33. -/
def resolveDocIds (docIds : Option (List Str)) (compoundId : Option Str)
    (store : List DocRecord) : Option (List Str) :=
  if docIds.getD [] = [] then
    match compoundId with
    | some cid => if cid = [] then none else some (selectIndexedDocIds store cid)
    | none => none
  else docIds

/-- `search_documents` (lines 5-224), abstracted over the document table
and the completion call: resolve the document ids, short-circuit with the
no-documents fallback when resolution yields nothing, otherwise fan out
and aggregate. -/
def search_documents (docIds : Option (List Str)) (compoundId : Option Str)
    (store : List DocRecord) (call : Str → CallOutcome) : Str × SourceMap :=
  match resolveDocIds docIds compoundId store with
  | none => (noDocsMsg, [])
  | some ids =>
    if ids = [] then (noDocsMsg, [])
    else searchPipeline (executeFanOut call ids)

/-! ### Dictionary lemmas -/

/-- The last value bound to a key in a flat entry list. -/
def lookupLast (es : List (Str × Str)) (k : Str) : Option Str :=
  es.foldl (fun acc p => if p.1 = k then some p.2 else acc) none

theorem foldl_lookup_init (k : Str) :
    ∀ (es : List (Str × Str)) (acc : Option Str),
      es.foldl (fun acc p => if p.1 = k then some p.2 else acc) acc =
        match es.foldl (fun acc p => if p.1 = k then some p.2 else acc) none with
        | some v => some v
        | none => acc := by
  intro es
  induction es with
  | nil => intro acc; rfl
  | cons e es ih =>
    intro acc
    simp only [List.foldl_cons]
    by_cases h : e.1 = k
    · simp only [if_pos h]
      rw [ih (some e.2)]
      generalize es.foldl (fun acc p => if p.1 = k then some p.2 else acc) none = F
      cases F <;> rfl
    · simp only [if_neg h]
      rw [ih acc]

theorem lookupLast_cons (e : Str × Str) (es : List (Str × Str)) (k : Str) :
    lookupLast (e :: es) k =
      match lookupLast es k with
      | some v => some v
      | none => if e.1 = k then some e.2 else none := by
  simp only [lookupLast, List.foldl_cons]
  rw [foldl_lookup_init k es (if e.1 = k then some e.2 else none)]

theorem lookupLast_append (a b : List (Str × Str)) (k : Str) :
    lookupLast (a ++ b) k =
      match lookupLast b k with
      | some v => some v
      | none => lookupLast a k := by
  simp only [lookupLast, List.foldl_append]
  rw [foldl_lookup_init k b (a.foldl (fun acc p => if p.1 = k then some p.2 else acc) none)]

theorem find_update_self (k v : Str) :
    ∀ m : SourceMap, (m.any fun p => p.1 = k) = true →
      ((m.map fun p => if p.1 = k then (k, v) else p).find? fun p => p.1 = k) =
        some (k, v) := by
  intro m
  induction m with
  | nil => simp
  | cons p m ih =>
    intro hany
    by_cases h : p.1 = k
    · simp [List.find?, h]
    · simp only [List.any_cons, decide_eq_true_eq, Bool.or_eq_true] at hany
      rcases hany with h' | h'
      · exact absurd h' h
      · simp only [List.map_cons, if_neg h, List.find?]
        simp only [decide_eq_true_eq, h, if_false]
        exact ih (by simpa using h')

theorem find_update_other (k v k' : Str) (hk : k' ≠ k) :
    ∀ m : SourceMap,
      ((m.map fun p => if p.1 = k then (k, v) else p).find? fun p => p.1 = k') =
        m.find? fun p => p.1 = k' := by
  intro m
  induction m with
  | nil => simp
  | cons p m ih =>
    have hne : ¬(k = k') := fun hh => hk hh.symm
    by_cases h : p.1 = k
    · have hpk' : ¬(p.1 = k') := h ▸ hne
      simp only [List.map_cons, if_pos h, List.find?]
      simp only [decide_eq_false hne, decide_eq_false hpk', if_false]
      exact ih
    · simp only [List.map_cons, if_neg h, List.find?]
      by_cases h2 : p.1 = k'
      · simp [decide_eq_true h2]
      · simp only [decide_eq_false h2]
        exact ih

theorem dictGet_dictInsert (m : SourceMap) (k v k' : Str) :
    dictGet (dictInsert m k v) k' = if k' = k then some v else dictGet m k' := by
  unfold dictGet dictInsert
  by_cases hany : (m.any fun p => p.1 = k) = true
  · rw [if_pos hany]
    by_cases hk : k' = k
    · rw [if_pos hk, hk, find_update_self k v m hany]
      simp
    · rw [find_update_other k v k' hk m, if_neg hk]
  · rw [if_neg hany]
    have hnone : (m.find? fun p => p.1 = k) = none := by
      rw [List.find?_eq_none]
      intro p hp
      simp only [decide_eq_true_eq]
      intro hpk
      exact hany (List.any_eq_true.mpr ⟨p, hp, by simp [hpk]⟩)
    by_cases hk : k' = k
    · subst hk
      rw [List.find?_append, hnone]
      simp [List.find?]
    · rw [List.find?_append]
      have hne : ¬(k = k') := fun hh => hk hh.symm
      have h1 : (([(k, v)] : SourceMap).find? fun p => p.1 = k') = none := by
        simp [List.find?, decide_eq_false hne]
      rw [h1, if_neg hk]
      cases m.find? fun p => p.1 = k' <;> simp

theorem dictGet_insertEntries :
    ∀ (es : List (Str × Str)) (m : SourceMap) (k : Str),
      dictGet (insertEntries m es) k =
        match lookupLast es k with
        | some v => some v
        | none => dictGet m k := by
  intro es
  induction es with
  | nil => intro m k; simp [insertEntries, lookupLast]
  | cons e es ih =>
    intro m k
    have h1 : insertEntries m (e :: es) = insertEntries (dictInsert m e.1 e.2) es := by
      simp [insertEntries]
    rw [h1, ih, lookupLast_cons, dictGet_dictInsert]
    cases lookupLast es k with
    | some v => simp
    | none =>
      by_cases h : e.1 = k
      · simp [if_pos h, h.symm]
      · have hne : ¬(k = e.1) := fun hh => h hh.symm
        simp [if_neg h, if_neg hne]

/-- On the empty starting dict, lookup is exactly the last binding of the
flattened entry stream. -/
theorem dictGet_insertEntries_nil (es : List (Str × Str)) (k : Str) :
    dictGet (insertEntries [] es) k = lookupLast es k := by
  rw [dictGet_insertEntries]
  cases lookupLast es k <;> simp [dictGet]

/-- A key bound nowhere in the entry stream is absent. -/
theorem lookupLast_eq_none (es : List (Str × Str)) (k : Str)
    (h : ∀ p ∈ es, p.1 ≠ k) : lookupLast es k = none := by
  induction es with
  | nil => simp [lookupLast]
  | cons e es ih =>
    rw [lookupLast_cons, ih (fun p hp => h p (List.mem_cons_of_mem e hp))]
    simp [h e (List.mem_cons_self e es)]

/-- When every binding of `k` in the stream carries the same value and at
least one is present, lookup returns that value. -/
theorem lookupLast_eq_some (es : List (Str × Str)) (k v : Str)
    (hmem : (k, v) ∈ es) (huniq : ∀ p ∈ es, p.1 = k → p.2 = v) :
    lookupLast es k = some v := by
  induction es with
  | nil => cases hmem
  | cons e es ih =>
    rw [lookupLast_cons]
    by_cases hk : ∃ p ∈ es, p.1 = k
    · obtain ⟨p, hp, hpk⟩ := hk
      have hmem' : (k, v) ∈ es := by
        have := huniq p (List.mem_cons_of_mem e hp) hpk
        cases hmem with
        | head => exact hpk ▸ this ▸ (by cases p; simp_all)
        | tail _ h => exact h
      rw [ih hmem' (fun p hp hpk => huniq p (List.mem_cons_of_mem e hp) hpk)]
    · push_neg at hk
      have hnone : lookupLast es k = none := lookupLast_eq_none es k hk
      rw [hnone]
      cases hmem with
      | head => simp
      | tail _ h => exact absurd rfl (hk _ h)

/-! ### Key-shape lemmas: `natToStr` and `mkKey` -/

theorem natToStrAux_digits :
    ∀ (fuel n : Nat), n < fuel →
      ∀ c ∈ natToStrAux fuel n, ∃ d, d < 10 ∧ c = digitChar d := by
  intro fuel
  induction fuel with
  | zero => intro n hn; omega
  | succ fuel ih =>
    intro n hn c hc
    by_cases h : n < 10
    · simp only [natToStrAux, if_pos h, List.mem_singleton] at hc
      exact ⟨n, h, hc⟩
    · simp only [natToStrAux, if_neg h, List.mem_append, List.mem_singleton] at hc
      rcases hc with hc | hc
      · have hdiv : n / 10 < fuel := by
          have h1 : n / 10 < n := Nat.div_lt_self (by omega) (by omega)
          omega
        exact ih (n / 10) hdiv c hc
      · exact ⟨n % 10, Nat.mod_lt n (by omega), hc⟩

theorem digitChar_ne_underscore (d : Nat) (hd : d < 10) : digitChar d ≠ '_' := by
  interval_cases d <;> decide

theorem natToStr_no_underscore (n : Nat) : ∀ c ∈ natToStr n, c ≠ '_' := by
  intro c hc
  obtain ⟨d, hd, hcd⟩ := natToStrAux_digits (n + 1) n (Nat.lt_succ_self n) c hc
  exact hcd ▸ digitChar_ne_underscore d hd

theorem natToStrAux_ne_nil :
    ∀ (fuel n : Nat), 0 < fuel → natToStrAux fuel n ≠ [] := by
  intro fuel n hf
  cases fuel with
  | zero => omega
  | succ fuel =>
    by_cases h : n < 10 <;> simp [natToStrAux, h]

theorem digitChar_toNat (d : Nat) (hd : d < 10) : (digitChar d).toNat = 48 + d := by
  interval_cases d <;> decide

theorem digitsToNat_append_singleton (xs : List Char) (c : Char) :
    digitsToNat (xs ++ [c]) = digitsToNat xs * 10 + (c.toNat - 48) := by
  simp [digitsToNat, List.foldl_append]

theorem digitsToNat_natToStrAux :
    ∀ (fuel n : Nat), n < fuel → digitsToNat (natToStrAux fuel n) = n := by
  intro fuel
  induction fuel with
  | zero => intro n hn; omega
  | succ fuel ih =>
    intro n hn
    by_cases h : n < 10
    · simp only [natToStrAux, if_pos h]
      have := digitChar_toNat n h
      simp [digitsToNat, this]
    · simp only [natToStrAux, if_neg h]
      rw [digitsToNat_append_singleton]
      have hdiv : n / 10 < fuel := by
        have h1 : n / 10 < n := Nat.div_lt_self (by omega) (by omega)
        omega
      rw [ih (n / 10) hdiv, digitChar_toNat (n % 10) (Nat.mod_lt n (by omega))]
      omega

theorem digitsToNat_natToStr (n : Nat) : digitsToNat (natToStr n) = n :=
  digitsToNat_natToStrAux (n + 1) n (Nat.lt_succ_self n)

theorem natToStr_inj {a b : Nat} (h : natToStr a = natToStr b) : a = b := by
  have := congrArg digitsToNat h
  rwa [digitsToNat_natToStr, digitsToNat_natToStr] at this

theorem underscore_split :
    ∀ (a₁ a₂ b₁ b₂ : Str), (∀ c ∈ a₁, c ≠ '_') → (∀ c ∈ a₂, c ≠ '_') →
      a₁ ++ '_' :: b₁ = a₂ ++ '_' :: b₂ → a₁ = a₂ ∧ b₁ = b₂ := by
  intro a₁
  induction a₁ with
  | nil =>
    intro a₂ b₁ b₂ _ h₂ heq
    cases a₂ with
    | nil => simpa using heq
    | cons c t =>
      simp only [List.nil_append, List.cons_append, List.cons.injEq] at heq
      exact absurd heq.1.symm (h₂ c (List.mem_cons_self c t))
  | cons c t ih =>
    intro a₂ b₁ b₂ h₁ h₂ heq
    cases a₂ with
    | nil =>
      simp only [List.nil_append, List.cons_append, List.cons.injEq] at heq
      exact absurd heq.1 (h₁ c (List.mem_cons_self c t))
    | cons c' t' =>
      simp only [List.cons_append, List.cons.injEq] at heq
      have := ih t' b₁ b₂ (fun x hx => h₁ x (List.mem_cons_of_mem c hx))
        (fun x hx => h₂ x (List.mem_cons_of_mem c' hx)) heq.2
      exact ⟨by rw [heq.1, this.1], this.2⟩

theorem mkKey_reverse (d : Str) (n : Nat) :
    (mkKey d n).reverse = (natToStr n).reverse ++ '_' :: d.reverse := by
  simp [mkKey, List.reverse_append]

theorem mkKey_inj {d₁ d₂ : Str} {n₁ n₂ : Nat}
    (h : mkKey d₁ n₁ = mkKey d₂ n₂) : d₁ = d₂ ∧ n₁ = n₂ := by
  have hr := congrArg List.reverse h
  rw [mkKey_reverse, mkKey_reverse] at hr
  have h₁ : ∀ c ∈ (natToStr n₁).reverse, c ≠ '_' := fun c hc =>
    natToStr_no_underscore n₁ c (List.mem_reverse.mp hc)
  have h₂ : ∀ c ∈ (natToStr n₂).reverse, c ≠ '_' := fun c hc =>
    natToStr_no_underscore n₂ c (List.mem_reverse.mp hc)
  obtain ⟨ha, hb⟩ := underscore_split _ _ _ _ h₁ h₂ hr
  refine ⟨?_, natToStr_inj (List.reverse_injective ha)⟩
  have := congrArg List.reverse hb
  simpa using this

/-! ### Structure of the aggregation fold -/

/-- All source-map entries produced by one result. -/
def resultEntries (r : Str × Payload) : List (Str × Str) :=
  r.2.flatMap (choiceEntries r.1)

/-- All source-map entries produced by a result list, in processing order. -/
def flatEntries (rs : List (Str × Payload)) : List (Str × Str) :=
  rs.flatMap resultEntries

/-- The `valid_results` pairs produced by one result. -/
def resultValid (r : Str × Payload) : List (Str × Str) :=
  r.2.flatMap (choiceValid r.1)

/-- The `valid_results` pairs produced by a result list. -/
def validOf (rs : List (Str × Payload)) : List (Str × Str) :=
  rs.flatMap resultValid

/-- The `collected_results` contents produced by one result. -/
def resultCollected (r : Str × Payload) : List Str :=
  r.2.flatMap choiceCollected

/-- The `collected_results` contents produced by a result list. -/
def collectedOf (rs : List (Str × Payload)) : List Str :=
  rs.flatMap resultCollected

/-- The `combined_answer` text produced by one result. -/
def resultText (r : Str × Payload) : Str :=
  r.2.flatMap choiceText

/-- The `combined_answer` text produced by a result list. -/
def textOf (rs : List (Str × Payload)) : Str :=
  rs.flatMap resultText

theorem insertEntries_append (m : SourceMap) (a b : List (Str × Str)) :
    insertEntries m (a ++ b) = insertEntries (insertEntries m a) b := by
  simp [insertEntries, List.foldl_append]

theorem foldChoices_eq :
    ∀ (cs : List Choice) (d : Str) (st : AggState),
      cs.foldl (processChoice d) st =
        ⟨insertEntries st.sources (cs.flatMap (choiceEntries d)),
         st.valid ++ cs.flatMap (choiceValid d),
         st.collected ++ cs.flatMap choiceCollected,
         st.combined ++ cs.flatMap choiceText⟩ := by
  intro cs
  induction cs with
  | nil =>
    intro d st
    cases st
    simp [insertEntries]
  | cons c cs ih =>
    intro d st
    rw [List.foldl_cons, ih]
    simp [processChoice, List.flatMap_cons, insertEntries_append, List.append_assoc]

theorem foldResults_eq :
    ∀ (rs : List (Str × Payload)) (st : AggState),
      rs.foldl processResult st =
        ⟨insertEntries st.sources (flatEntries rs),
         st.valid ++ validOf rs,
         st.collected ++ collectedOf rs,
         st.combined ++ textOf rs⟩ := by
  intro rs
  induction rs with
  | nil =>
    intro st
    cases st
    simp [flatEntries, validOf, collectedOf, textOf, insertEntries]
  | cons r rs ih =>
    intro st
    rw [List.foldl_cons]
    have hr : processResult st r =
        ⟨insertEntries st.sources (resultEntries r),
         st.valid ++ resultValid r,
         st.collected ++ resultCollected r,
         st.combined ++ resultText r⟩ := by
      unfold processResult resultEntries resultValid resultCollected resultText
      exact foldChoices_eq r.2 r.1 st
    rw [hr, ih]
    simp [flatEntries, validOf, collectedOf, textOf, List.flatMap_cons,
      insertEntries_append, List.append_assoc]

theorem aggregateState_eq (rs : List (Str × Payload)) :
    aggregateState rs =
      ⟨insertEntries [] (flatEntries rs), validOf rs, collectedOf rs, textOf rs⟩ := by
  unfold aggregateState initState
  rw [foldResults_eq]
  simp

theorem sources_eq (rs : List (Str × Payload)) :
    (aggregateState rs).sources = insertEntries [] (flatEntries rs) := by
  rw [aggregateState_eq]

theorem valid_eq (rs : List (Str × Payload)) :
    (aggregateState rs).valid = validOf rs := by
  rw [aggregateState_eq]

theorem combined_eq (rs : List (Str × Payload)) :
    (aggregateState rs).combined = textOf rs := by
  rw [aggregateState_eq]

/-- Lookup in the final source map is exactly the last binding of the
flattened entry stream. -/
theorem dictGet_sources (rs : List (Str × Payload)) (k : Str) :
    dictGet (aggregateState rs).sources k = lookupLast (flatEntries rs) k := by
  rw [sources_eq, dictGet_insertEntries_nil]

theorem choiceText_eq_valid_bind (d : Str) (c : Choice) :
    (choiceValid d c).flatMap (fun p => p.2 ++ sepNl) = choiceText c := by
  unfold choiceValid choiceText
  by_cases h : contributesB c = true <;> simp [h]

theorem resultText_eq (r : Str × Payload) :
    resultText r = (resultValid r).flatMap (fun p => p.2 ++ sepNl) := by
  unfold resultText resultValid
  rw [List.flatMap_assoc]
  congr 1
  funext c
  exact (choiceText_eq_valid_bind r.1 c).symm

/-- The combined answer is the concatenation, over `valid_results`, of
each contributing content followed by the blank-line separator. -/
theorem textOf_eq_validOf (rs : List (Str × Payload)) :
    textOf rs = (validOf rs).flatMap (fun p => p.2 ++ sepNl) := by
  unfold textOf validOf
  rw [List.flatMap_assoc]
  congr 1
  funext r
  exact resultText_eq r

/-! ### Shape of the per-choice entries -/

theorem mem_choiceEntries {d : Str} {c : Choice} {p : Str × Str}
    (hp : p ∈ choiceEntries d c) :
    ∃ n, n ∈ choiceNumbers c ∧ 1 ≤ n ∧ n - 1 < c.citations.length ∧
      p = (mkKey d n, storedTitle ((c.citations.getD (n - 1) ⟨[]⟩).title)) := by
  unfold choiceEntries at hp
  by_cases h : choiceNumbers c ≠ [] ∧ c.citations ≠ []
  · rw [if_pos h] at hp
    obtain ⟨n, hn, heq⟩ := List.mem_filterMap.mp hp
    by_cases hrange : 1 ≤ n ∧ n - 1 < c.citations.length
    · rw [if_pos hrange] at heq
      exact ⟨n, hn, hrange.1, hrange.2, (Option.some.injEq _ _ ▸ heq).symm⟩
    · rw [if_neg hrange] at heq
      cases heq
  · rw [if_neg h] at hp
    cases hp

theorem choiceEntries_mem {d : Str} {c : Choice} {n : Nat}
    (hn : n ∈ choiceNumbers c) (h1 : 1 ≤ n) (h2 : n - 1 < c.citations.length) :
    (mkKey d n, storedTitle ((c.citations.getD (n - 1) ⟨[]⟩).title)) ∈
      choiceEntries d c := by
  unfold choiceEntries
  have hne1 : choiceNumbers c ≠ [] := List.ne_nil_of_mem hn
  have hne2 : c.citations ≠ [] := by
    intro hnil
    rw [hnil] at h2
    simp at h2
  rw [if_pos ⟨hne1, hne2⟩]
  exact List.mem_filterMap.mpr ⟨n, hn, by rw [if_pos ⟨h1, h2⟩]⟩

theorem mem_resultEntries_key {r : Str × Payload} {p : Str × Str}
    (hp : p ∈ resultEntries r) : ∃ n, p.1 = mkKey r.1 n := by
  obtain ⟨c, _, hpc⟩ := List.mem_flatMap.mp hp
  obtain ⟨n, _, _, _, hpeq⟩ := mem_choiceEntries hpc
  exact ⟨n, by rw [hpeq]⟩

theorem flatEntries_cons (r : Str × Payload) (rs : List (Str × Payload)) :
    flatEntries (r :: rs) = resultEntries r ++ flatEntries rs := by
  simp [flatEntries, List.flatMap_cons]

/-! ### Claim theorems -/

/-- Claim C4: if every per-document search call fails at the transport
level — every raw result carries `none` instead of a payload — the
pipeline returns exactly the pair
`("I couldn't find relevant information in the documents.", {})`. -/
theorem C4_all_transport_failures (raw : List (Str × Option Payload))
    (h : ∀ r ∈ raw, r.2 = none) :
    searchPipeline raw = (noRelevantMsg, []) := by
  have hc : collectResults raw = [] := by
    unfold collectResults
    rw [List.filterMap_eq_nil_iff]
    intro r hr
    rw [h r hr]
    rfl
  unfold searchPipeline
  simp [hc]

/-- Witness for C4 at a concrete two-failure input. -/
theorem C4_witness :
    searchPipeline [(['1'], none), (['2'], none)] = (noRelevantMsg, []) :=
  C4_all_transport_failures [(['1'], none), (['2'], none)] (by decide)

/-- Claim C5: when index resolution yields no document identifiers (no
explicit identifiers, and either no truthy compound identifier or no
indexed documents for the compound), `search_documents` returns exactly
`("I don't have any relevant documents to search through.", {})` for
every possible search call — the result does not depend on the fan-out
executor or the aggregator, so neither is invoked. -/
theorem C5_empty_resolution (docIds : Option (List Str))
    (compoundId : Option Str) (store : List DocRecord)
    (hempty : docIds.getD [] = [])
    (hdb : ∀ cid, compoundId = some cid → selectIndexedDocIds store cid = []) :
    ∀ call, search_documents docIds compoundId store call = (noDocsMsg, []) := by
  intro call
  unfold search_documents resolveDocIds
  rw [if_pos hempty]
  cases compoundId with
  | none => rfl
  | some cid =>
    by_cases h : cid = []
    · simp [h]
    · simp [h, hdb cid rfl]

/-- Witness for C5: an empty explicit list, a compound whose only document
is still `processing`, and an arbitrary call. -/
theorem C5_witness :
    search_documents (some []) (some ['c'])
      [⟨5, ['c'], "processing".toList⟩]
      (fun _ => Except.error []) = (noDocsMsg, []) :=
  C5_empty_resolution (some []) (some ['c']) [⟨5, ['c'], "processing".toList⟩]
    (by decide) (fun cid hcid => by cases hcid; decide)
    (fun _ => Except.error [])

/-- Claim C7: a transport/service error raised by the underlying
completion call is not propagated: `search_single_index` is total and
returns the document identifier paired with the `none` failure marker,
and the fan-out over any identifier list completes with one result per
submitted identifier, each carrying its own identifier. -/
theorem C7_transport_error_isolated (call : Str → CallOutcome) (docId : Str)
    (e : Str) (herr : call (indexName docId) = Except.error e) :
    search_single_index call docId = (docId, none) ∧
    ∀ ids : List Str, (executeFanOut call ids).map Prod.fst = ids := by
  constructor
  · unfold search_single_index
    rw [herr]
  · intro ids
    unfold executeFanOut
    rw [List.map_map]
    have hid : Prod.fst ∘ search_single_index call = id := by
      funext i
      simp only [Function.comp_apply, id_eq]
      unfold search_single_index
      cases call (indexName i) <;> rfl
    rw [hid, List.map_id]

/-- Witness for C7: a call that always raises. -/
theorem C7_witness :
    search_single_index (fun _ => Except.error ['x']) ['9'] = (['9'], none) ∧
    (executeFanOut (fun _ => Except.error ['x']) [['9'], ['8']]).map Prod.fst =
      [['9'], ['8']] :=
  ⟨(C7_transport_error_isolated (fun _ => Except.error ['x']) ['9'] ['x'] rfl).1,
   (C7_transport_error_isolated (fun _ => Except.error ['x']) ['9'] ['x'] rfl).2
     [['9'], ['8']]⟩

/-- Claim C9: resolution returns a non-empty explicit identifier list
unchanged regardless of the compound identifier; with no explicit
identifiers and a truthy compound identifier it returns exactly the
identifiers of the compound's records with status `indexed`. -/
theorem C9_resolution (l : List Str) (cid : Str) (store : List DocRecord)
    (hl : l ≠ []) (hcid : cid ≠ []) :
    (∀ compoundId, resolveDocIds (some l) compoundId store = some l) ∧
    resolveDocIds none (some cid) store = some (selectIndexedDocIds store cid) ∧
    resolveDocIds (some []) (some cid) store = some (selectIndexedDocIds store cid) ∧
    (∀ i, i ∈ selectIndexedDocIds store cid ↔
      ∃ r, r ∈ store ∧ r.compound_id = cid ∧ r.status = "indexed".toList ∧
        i = natToStr r.id) := by
  refine ⟨?_, ?_, ?_, ?_⟩
  · intro compoundId
    unfold resolveDocIds
    rw [if_neg (by simpa using hl)]
  · unfold resolveDocIds
    simp [hcid]
  · unfold resolveDocIds
    simp [hcid]
  · intro i
    unfold selectIndexedDocIds
    simp only [List.mem_map, List.mem_filter, decide_eq_true_eq]
    constructor
    · rintro ⟨r, ⟨hr, h1, h2⟩, hi⟩
      exact ⟨r, hr, h1, h2, hi.symm⟩
    · rintro ⟨r, hr, h1, h2, hi⟩
      exact ⟨r, ⟨hr, h1, h2⟩, hi.symm⟩

/-- Witness for C9 at a concrete store with one indexed and one
processing document. -/
theorem C9_witness :
    resolveDocIds (some [['7']]) (some ['c'])
      [⟨3, ['c'], "indexed".toList⟩, ⟨4, ['c'], "processing".toList⟩] =
        some [['7']] ∧
    resolveDocIds none (some ['c'])
      [⟨3, ['c'], "indexed".toList⟩, ⟨4, ['c'], "processing".toList⟩] =
        some (selectIndexedDocIds
          [⟨3, ['c'], "indexed".toList⟩, ⟨4, ['c'], "processing".toList⟩] ['c']) ∧
    (['3'] ∈ selectIndexedDocIds
        [⟨3, ['c'], "indexed".toList⟩, ⟨4, ['c'], "processing".toList⟩] ['c'] ↔
      ∃ r, r ∈ [(⟨3, ['c'], "indexed".toList⟩ : DocRecord),
                ⟨4, ['c'], "processing".toList⟩] ∧
        r.compound_id = ['c'] ∧ r.status = "indexed".toList ∧
        ['3'] = natToStr r.id) :=
  ⟨(C9_resolution [['7']] ['c'] _ (by decide) (by decide)).1 (some ['c']),
   (C9_resolution [['7']] ['c'] _ (by decide) (by decide)).2.1,
   (C9_resolution [['7']] ['c'] _ (by decide) (by decide)).2.2.2 ['3']⟩

/-! ### Projections of `processResults` and single-result lookups -/

theorem processResults_snd (rs : List (Str × Payload)) :
    (processResults rs).2 = (aggregateState rs).sources := by
  unfold processResults
  by_cases h : (aggregateState rs).valid = [] <;> simp [h]

theorem processResults_fst (rs : List (Str × Payload)) :
    (processResults rs).1 =
      if (aggregateState rs).valid = [] then noInfoMsg
      else pyStrip (aggregateState rs).combined := by
  unfold processResults
  by_cases h : (aggregateState rs).valid = [] <;> simp [h]

theorem dictGet_processResults (rs : List (Str × Payload)) (k : Str) :
    dictGet (processResults rs).2 k = lookupLast (flatEntries rs) k := by
  rw [processResults_snd, dictGet_sources]

theorem flatEntries_single (d : Str) (c : Choice) :
    flatEntries [(d, [c])] = choiceEntries d c := by
  simp [flatEntries, resultEntries]

theorem flatEntries_pair (d₁ d₂ : Str) (c₁ c₂ : Choice) :
    flatEntries [(d₁, [c₁]), (d₂, [c₂])] =
      choiceEntries d₁ c₁ ++ choiceEntries d₂ c₂ := by
  simp [flatEntries, resultEntries]

theorem validOf_single (d : Str) (c : Choice) :
    validOf [(d, [c])] = choiceValid d c := by
  simp [validOf, resultValid]

theorem textOf_single (d : Str) (c : Choice) :
    textOf [(d, [c])] = choiceText c := by
  simp [textOf, resultText]

/-- Lookup of an in-range marker's key for a single one-choice result. -/
theorem lookup_single_result (d : Str) (c : Choice) (j : Nat)
    (hj : j ∈ choiceNumbers c) (h1 : 1 ≤ j) (h2 : j - 1 < c.citations.length) :
    lookupLast (flatEntries [(d, [c])]) (mkKey d j) =
      some (storedTitle ((c.citations.getD (j - 1) ⟨[]⟩).title)) := by
  rw [flatEntries_single]
  apply lookupLast_eq_some
  · exact choiceEntries_mem hj h1 h2
  · intro p hp hpk
    obtain ⟨n, _, _, _, hpeq⟩ := mem_choiceEntries hp
    rw [hpeq] at hpk ⊢
    simp only at hpk ⊢
    rw [(mkKey_inj hpk).2]

/-! ### Title stripping -/

theorem dropThroughFirst_append (pre post : Str) (sep : Char)
    (hpre : sep ∉ pre) : dropThroughFirst sep (pre ++ sep :: post) = post := by
  induction pre with
  | nil => simp [dropThroughFirst]
  | cons c t ih =>
    have hc : c ≠ sep := fun h => hpre (h ▸ List.mem_cons_self c t)
    simp only [List.cons_append, dropThroughFirst, if_neg hc]
    exact ih fun h => hpre (List.mem_cons_of_mem c h)

theorem storedTitle_split (pre post : Str) (hpre : '_' ∉ pre) :
    storedTitle (pre ++ '_' :: post) = post := by
  unfold storedTitle
  rw [if_pos ⟨by simp, List.mem_append_right pre (List.mem_cons_self _ _)⟩]
  exact dropThroughFirst_append pre post '_' hpre

theorem storedTitle_id (t : Str) (h : '_' ∉ t) : storedTitle t = t := by
  unfold storedTitle
  rw [if_neg fun hc => h hc.2]

/-- Claim C8: a title containing an underscore is stored with everything
up to and including the first underscore stripped; a title without an
underscore is stored unchanged — observed through the source map of the
aggregation of a single result carrying a `[doc1]` marker. -/
theorem C8_title_prefix_stripping (d : Str) (c : Choice) (t pre post : Str)
    (rest : List Citation) (hcits : c.citations = ⟨t⟩ :: rest)
    (hmark : 1 ∈ choiceNumbers c) :
    (t = pre ++ '_' :: post → '_' ∉ pre →
      dictGet (processResults [(d, [c])]).2 (mkKey d 1) = some post) ∧
    ('_' ∉ t →
      dictGet (processResults [(d, [c])]).2 (mkKey d 1) = some t) := by
  have hlen : (1 : Nat) - 1 < c.citations.length := by
    rw [hcits]
    simp
  have hbase :
      dictGet (processResults [(d, [c])]).2 (mkKey d 1) =
        some (storedTitle ((c.citations.getD 0 ⟨[]⟩).title)) := by
    rw [dictGet_processResults]
    exact lookup_single_result d c 1 hmark (Nat.le_refl 1) hlen
  have hgd : (c.citations.getD 0 ⟨[]⟩).title = t := by
    rw [hcits]
    rfl
  constructor
  · intro hsplit hpre
    rw [hbase, hgd, hsplit, storedTitle_split pre post hpre]
  · intro hno
    rw [hbase, hgd, storedTitle_id t hno]

/-- Witness for C8: the spec's own examples, `"abc123_Contract.pdf"`
stored as `"Contract.pdf"` and `"Contract.pdf"` stored unchanged. -/
theorem C8_witness :
    dictGet (processResults [(['1'],
      [⟨"See [doc1].".toList, [⟨"abc123_Contract.pdf".toList⟩]⟩])]).2
      (mkKey ['1'] 1) = some "Contract.pdf".toList ∧
    dictGet (processResults [(['2'],
      [⟨"See [doc1].".toList, [⟨"Contract.pdf".toList⟩]⟩])]).2
      (mkKey ['2'] 1) = some "Contract.pdf".toList :=
  ⟨(C8_title_prefix_stripping ['1']
      ⟨"See [doc1].".toList, [⟨"abc123_Contract.pdf".toList⟩]⟩
      "abc123_Contract.pdf".toList "abc123".toList "Contract.pdf".toList
      [] rfl (by decide)).1 (by decide) (by decide),
   (C8_title_prefix_stripping ['2']
      ⟨"See [doc1].".toList, [⟨"Contract.pdf".toList⟩]⟩
      "Contract.pdf".toList [] [] [] rfl (by decide)).2 (by decide)⟩

/-- Claim C6: two distinct document identifiers whose results both carry a
`[doc1]` marker with (distinct) citation titles produce two distinct
source-map keys, each mapped to its own document's stored title — no
overwrite. -/
theorem C6_cross_document_keys (d₁ d₂ : Str) (c₁ c₂ : Choice) (t₁ t₂ : Str)
    (r₁ r₂ : List Citation) (hne : d₁ ≠ d₂)
    (h1 : 1 ∈ choiceNumbers c₁) (h2 : 1 ∈ choiceNumbers c₂)
    (hcits₁ : c₁.citations = ⟨t₁⟩ :: r₁) (hcits₂ : c₂.citations = ⟨t₂⟩ :: r₂)
    (htne : t₁ ≠ t₂) :
    mkKey d₁ 1 ≠ mkKey d₂ 1 ∧
    dictGet (processResults [(d₁, [c₁]), (d₂, [c₂])]).2 (mkKey d₁ 1) =
      some (storedTitle t₁) ∧
    dictGet (processResults [(d₁, [c₁]), (d₂, [c₂])]).2 (mkKey d₂ 1) =
      some (storedTitle t₂) := by
  have hkne : mkKey d₁ 1 ≠ mkKey d₂ 1 := fun h => hne (mkKey_inj h).1
  have hl₁ : (1 : Nat) - 1 < c₁.citations.length := by rw [hcits₁]; simp
  have hl₂ : (1 : Nat) - 1 < c₂.citations.length := by rw [hcits₂]; simp
  have hv₁ : (c₁.citations.getD 0 ⟨[]⟩).title = t₁ := by rw [hcits₁]; rfl
  have hv₂ : (c₂.citations.getD 0 ⟨[]⟩).title = t₂ := by rw [hcits₂]; rfl
  refine ⟨hkne, ?_, ?_⟩
  · rw [dictGet_processResults, flatEntries_pair]
    have := choiceEntries_mem (d := d₁) h1 (Nat.le_refl 1) hl₁
    rw [hv₁] at this
    apply lookupLast_eq_some
    · exact List.mem_append_left _ this
    · intro p hp hpk
      rcases List.mem_append.mp hp with hp | hp
      · obtain ⟨n, _, _, _, hpeq⟩ := mem_choiceEntries hp
        rw [hpeq] at hpk ⊢
        simp only at hpk ⊢
        rw [(mkKey_inj hpk).2, hv₁]
      · obtain ⟨n, _, _, _, hpeq⟩ := mem_choiceEntries hp
        rw [hpeq] at hpk
        simp only at hpk
        exact absurd (mkKey_inj hpk).1 (Ne.symm hne)
  · rw [dictGet_processResults, flatEntries_pair]
    have := choiceEntries_mem (d := d₂) h2 (Nat.le_refl 1) hl₂
    rw [hv₂] at this
    apply lookupLast_eq_some
    · exact List.mem_append_right _ this
    · intro p hp hpk
      rcases List.mem_append.mp hp with hp | hp
      · obtain ⟨n, _, _, _, hpeq⟩ := mem_choiceEntries hp
        rw [hpeq] at hpk
        simp only at hpk
        exact absurd (mkKey_inj hpk).1 hne
      · obtain ⟨n, _, _, _, hpeq⟩ := mem_choiceEntries hp
        rw [hpeq] at hpk ⊢
        simp only at hpk ⊢
        rw [(mkKey_inj hpk).2, hv₂]

/-- Witness for C6 at two concrete one-citation results. -/
theorem C6_witness :
    mkKey ['1'] 1 ≠ mkKey ['2'] 1 ∧
    dictGet (processResults [(['1'], [⟨"See [doc1].".toList, [⟨['a']⟩]⟩]),
                             (['2'], [⟨"Per [doc1].".toList, [⟨['b']⟩]⟩])]).2
      (mkKey ['1'] 1) = some (storedTitle ['a']) ∧
    dictGet (processResults [(['1'], [⟨"See [doc1].".toList, [⟨['a']⟩]⟩]),
                             (['2'], [⟨"Per [doc1].".toList, [⟨['b']⟩]⟩])]).2
      (mkKey ['2'] 1) = some (storedTitle ['b']) :=
  C6_cross_document_keys ['1'] ['2']
    ⟨"See [doc1].".toList, [⟨['a']⟩]⟩ ⟨"Per [doc1].".toList, [⟨['b']⟩]⟩
    ['a'] ['b'] [] [] (by decide) (by decide) (by decide) rfl rfl (by decide)

/-- Claim C10: a marker value `k` whose 0-based index is out of range for
the result's citation list produces no source-map entry (and no error —
the embedding is a total function), while every in-range marker of the
same result is stored normally and the answer-text contribution of the
result is unaffected. -/
theorem C10_out_of_range_marker (d : Str) (c : Choice) (k : Nat)
    (hk : k ∈ choiceNumbers c) (hout : c.citations.length < k) :
    dictGet (processResults [(d, [c])]).2 (mkKey d k) = none ∧
    (∀ j, j ∈ choiceNumbers c → 1 ≤ j → j - 1 < c.citations.length →
      dictGet (processResults [(d, [c])]).2 (mkKey d j) =
        some (storedTitle ((c.citations.getD (j - 1) ⟨[]⟩).title))) ∧
    (processResults [(d, [c])]).1 =
      (if contributesB c then pyStrip (c.content ++ sepNl) else noInfoMsg) := by
  refine ⟨?_, ?_, ?_⟩
  · rw [dictGet_processResults, flatEntries_single]
    apply lookupLast_eq_none
    intro p hp
    obtain ⟨n, _, h1, h2, hpeq⟩ := mem_choiceEntries hp
    rw [hpeq]
    simp only
    intro hkey
    have : n = k := (mkKey_inj hkey).2
    omega
  · intro j hj h1 h2
    rw [dictGet_processResults]
    exact lookup_single_result d c j hj h1 h2
  · rw [processResults_fst, aggregateState_eq]
    simp only [validOf_single, textOf_single, choiceValid, choiceText]
    by_cases h : contributesB c = true <;> simp [h]

/-- Witness for C10: markers `[doc1]` and `[doc5]` against a single
citation. -/
theorem C10_witness :
    dictGet (processResults [(['1'],
      [⟨"A [doc1] and [doc5].".toList, [⟨['t']⟩]⟩])]).2 (mkKey ['1'] 5) = none ∧
    dictGet (processResults [(['1'],
      [⟨"A [doc1] and [doc5].".toList, [⟨['t']⟩]⟩])]).2 (mkKey ['1'] 1) =
      some (storedTitle (((⟨"A [doc1] and [doc5].".toList,
        [⟨['t']⟩]⟩ : Choice).citations.getD 0 ⟨[]⟩).title)) ∧
    (processResults [(['1'],
      [⟨"A [doc1] and [doc5].".toList, [⟨['t']⟩]⟩])]).1 =
      (if contributesB ⟨"A [doc1] and [doc5].".toList, [⟨['t']⟩]⟩ then
        pyStrip ("A [doc1] and [doc5].".toList ++ sepNl) else noInfoMsg) :=
  ⟨(C10_out_of_range_marker ['1'] ⟨"A [doc1] and [doc5].".toList, [⟨['t']⟩]⟩ 5
      (by decide) (by decide)).1,
   (C10_out_of_range_marker ['1'] ⟨"A [doc1] and [doc5].".toList, [⟨['t']⟩]⟩ 5
      (by decide) (by decide)).2.1 1 (by decide) (by decide) (by decide),
   (C10_out_of_range_marker ['1'] ⟨"A [doc1] and [doc5].".toList, [⟨['t']⟩]⟩ 5
      (by decide) (by decide)).2.2⟩

/-! ### Negative-result handling (C1, C2) -/

theorem mem_choiceValid {d : Str} {c : Choice} {p : Str × Str}
    (hp : p ∈ choiceValid d c) :
    contributesB c = true ∧ p = (d, c.content) := by
  unfold choiceValid at hp
  by_cases h : contributesB c = true
  · rw [if_pos h] at hp
    exact ⟨h, List.mem_singleton.mp hp⟩
  · rw [if_neg h] at hp
    cases hp

theorem choiceValid_eq_nil {d : Str} {c : Choice}
    (h : contributesB c = false) : choiceValid d c = [] := by
  unfold choiceValid
  rw [if_neg (by simp [h])]

theorem mem_validOf {rs : List (Str × Payload)} {p : Str × Str}
    (hp : p ∈ validOf rs) :
    ∃ r ∈ rs, ∃ c ∈ r.2, contributesB c = true ∧ p = (r.1, c.content) := by
  obtain ⟨r, hr, hpr⟩ := List.mem_flatMap.mp hp
  obtain ⟨c, hc, hpc⟩ := List.mem_flatMap.mp hpr
  obtain ⟨hcontrib, hpeq⟩ := mem_choiceValid hpc
  exact ⟨r, hr, c, hc, hcontrib, hpeq⟩

/-- Claim C1 (amended): a result whose text contains a negative phrase
never contributes to the combined answer — every `valid_results` pair is
non-negative — but, contrary to the original claim, its citation entries
ARE still added to the source map: for a single negative result the
aggregation returns the no-information fallback paired with exactly the
dict built from that result's citation entries. -/
theorem C1_negative_excluded_from_answer
    (rs : List (Str × Payload)) (p : Str × Str)
    (hp : p ∈ (aggregateState rs).valid) :
    isNegativeResponse p.2 = false ∧
    ∀ (d : Str) (c : Choice), isNegativeB c = true →
      processResults [(d, [c])] = (noInfoMsg, insertEntries [] (choiceEntries d c)) := by
  constructor
  · rw [valid_eq] at hp
    obtain ⟨r, _, c, _, hcontrib, hpeq⟩ := mem_validOf hp
    have hneg : isNegativeB c = false := by
      unfold contributesB at hcontrib
      rcases Bool.and_eq_true_iff.mp hcontrib with ⟨_, hnn⟩
      simpa using hnn
    rw [hpeq]
    exact hneg
  · intro d c hneg
    have hcontrib : contributesB c = false := by
      unfold contributesB
      rw [hneg]
      simp
    have hvalid : (aggregateState [(d, [c])]).valid = [] := by
      rw [valid_eq, validOf_single, choiceValid_eq_nil hcontrib]
    have hsrc : (processResults [(d, [c])]).2 =
        insertEntries [] (choiceEntries d c) := by
      rw [processResults_snd, sources_eq, flatEntries_single]
    have hans : (processResults [(d, [c])]).1 = noInfoMsg := by
      rw [processResults_fst, if_pos hvalid]
    calc processResults [(d, [c])]
        = ((processResults [(d, [c])]).1, (processResults [(d, [c])]).2) := rfl
      _ = (noInfoMsg, insertEntries [] (choiceEntries d c)) := by rw [hsrc, hans]

/-- Counterexample to C1 as stated: a negative result with a valid
`[doc1]` marker and a non-empty citation list does add an entry derived
from it to the returned source map. -/
theorem C1_counterexample :
    isNegativeB ⟨"no data on this [doc1]".toList, [⟨['t']⟩]⟩ = true ∧
    hasCitationsB ⟨"no data on this [doc1]".toList, [⟨['t']⟩]⟩ = true ∧
    dictGet (processResults
        [(['1'], [⟨"no data on this [doc1]".toList, [⟨['t']⟩]⟩])]).2
      (mkKey ['1'] 1) = some ['t'] := by
  refine ⟨by decide, by decide, by decide⟩

/-- Witness for C1: a contributing pair drawn from a concrete mixed run,
and a concrete negative single result. -/
theorem C1_witness :
    isNegativeResponse "Fact [doc1].".toList = false ∧
    processResults [(['2'], [⟨"no data on X [doc1]".toList, [⟨['u']⟩]⟩])] =
      (noInfoMsg, insertEntries []
        (choiceEntries ['2'] ⟨"no data on X [doc1]".toList, [⟨['u']⟩]⟩)) := by
  have h := C1_negative_excluded_from_answer
    [(['1'], [⟨"Fact [doc1].".toList, [⟨['v']⟩]⟩])]
    (['1'], "Fact [doc1].".toList) (by decide)
  exact ⟨h.1, h.2 ['2'] ⟨"no data on X [doc1]".toList, [⟨['u']⟩]⟩ (by decide)⟩

/-- Claim C2 (amended): when no result is classified as contributing the
answer is exactly the no-information fallback, but the accompanying
source map is the dict accumulated from citation extraction — which is
not necessarily empty, since negative results with markers and citations
still add entries. -/
theorem C2_no_contributor_fallback (rs : List (Str × Payload))
    (h : ∀ r ∈ rs, ∀ c ∈ r.2, contributesB c = false) :
    (processResults rs).1 = noInfoMsg ∧
    (processResults rs).2 = insertEntries [] (flatEntries rs) := by
  have hvalid : (aggregateState rs).valid = [] := by
    rw [valid_eq]
    unfold validOf
    rw [List.flatMap_eq_nil_iff]
    intro r hr
    unfold resultValid
    rw [List.flatMap_eq_nil_iff]
    intro c hc
    exact choiceValid_eq_nil (h r hr c hc)
  constructor
  · rw [processResults_fst, if_pos hvalid]
  · rw [processResults_snd, sources_eq]

/-- Counterexample to C2 as stated: an input where no result contributes,
yet the returned source map is non-empty (so not the claimed empty map). -/
theorem C2_counterexample :
    (∀ r ∈ [(['3'], [(⟨"no information available [doc1]".toList,
        [⟨['u']⟩]⟩ : Choice)])], ∀ c ∈ r.2, contributesB c = false) ∧
    (processResults [(['3'], [⟨"no information available [doc1]".toList,
        [⟨['u']⟩]⟩])]).1 = noInfoMsg ∧
    (processResults [(['3'], [⟨"no information available [doc1]".toList,
        [⟨['u']⟩]⟩])]).2 ≠ [] := by
  refine ⟨by decide, by decide, by decide⟩

/-- Witness for C2 at a concrete non-contributing input. -/
theorem C2_witness :
    (processResults [(['4'], [⟨"no relevant information [doc2]".toList,
        [⟨['w']⟩, ⟨['z']⟩]⟩])]).1 = noInfoMsg ∧
    (processResults [(['4'], [⟨"no relevant information [doc2]".toList,
        [⟨['w']⟩, ⟨['z']⟩]⟩])]).2 =
      insertEntries [] (flatEntries [(['4'],
        [⟨"no relevant information [doc2]".toList, [⟨['w']⟩, ⟨['z']⟩]⟩])]) :=
  C2_no_contributor_fallback
    [(['4'], [⟨"no relevant information [doc2]".toList, [⟨['w']⟩, ⟨['z']⟩]⟩])]
    (by decide)

/-! ### Order independence (C3) -/

theorem exists_key_of_lookupLast_ne_none {es : List (Str × Str)} {k : Str}
    (h : lookupLast es k ≠ none) : ∃ p ∈ es, p.1 = k := by
  by_contra hc
  push_neg at hc
  exact h (lookupLast_eq_none es k hc)

/-- Every key produced by a result is namespaced by that result's
document identifier, so results with distinct identifiers bind disjoint
key sets. -/
theorem resultEntries_key_disjoint {x y : Str × Payload} (hne : x.1 ≠ y.1)
    {k : Str} (hx : ∃ p ∈ resultEntries x, p.1 = k) :
    ¬∃ q ∈ resultEntries y, q.1 = k := by
  rintro ⟨q, hq, hqk⟩
  obtain ⟨p, hp, hpk⟩ := hx
  obtain ⟨n, hpn⟩ := mem_resultEntries_key hp
  obtain ⟨m, hqm⟩ := mem_resultEntries_key hq
  rw [hpn] at hpk
  rw [hqm] at hqk
  exact hne (mkKey_inj (hpk.trans hqk.symm)).1

theorem lookupLast_flatEntries_perm {rs₁ rs₂ : List (Str × Payload)}
    (hperm : rs₁.Perm rs₂) :
    (rs₁.map Prod.fst).Nodup →
    ∀ k, lookupLast (flatEntries rs₁) k = lookupLast (flatEntries rs₂) k := by
  induction hperm with
  | nil => intro _ k; rfl
  | cons x h ih =>
    intro hnd k
    rw [List.map_cons] at hnd
    have hnd' := (List.nodup_cons.mp hnd).2
    rw [flatEntries_cons, flatEntries_cons, lookupLast_append, lookupLast_append,
      ih hnd' k]
  | swap x y l =>
    intro hnd k
    rw [List.map_cons, List.map_cons] at hnd
    have hne : y.1 ≠ x.1 := by
      have hnotin := (List.nodup_cons.mp hnd).1
      intro he
      exact hnotin (he ▸ List.mem_cons_self x.1 _)
    rw [flatEntries_cons, flatEntries_cons, flatEntries_cons, flatEntries_cons]
    rw [lookupLast_append, lookupLast_append, lookupLast_append, lookupLast_append]
    cases hl : lookupLast (flatEntries l) k with
    | some v => rfl
    | none =>
      cases hx : lookupLast (resultEntries x) k with
      | none => cases hy : lookupLast (resultEntries y) k <;> rfl
      | some vx =>
        cases hy : lookupLast (resultEntries y) k with
        | none => rfl
        | some vy =>
          exfalso
          refine resultEntries_key_disjoint hne
            (exists_key_of_lookupLast_ne_none (k := k) ?_)
            (exists_key_of_lookupLast_ne_none (k := k) ?_)
          · rw [hy]; simp
          · rw [hx]; simp
  | trans h₁ h₂ ih₁ ih₂ =>
    intro hnd k
    have hnd₂ := ((h₁.map Prod.fst).nodup_iff).mp hnd
    rw [ih₁ hnd k, ih₂ hnd₂ k]

theorem isPrefixB_self_append : ∀ (s t : Str), isPrefixB s (s ++ t) = true := by
  intro s
  induction s with
  | nil => intro t; rfl
  | cons c cs ih =>
    intro t
    simp [isPrefixB, ih t]

theorem containsSub_append (s : Str) :
    ∀ (a b : Str), containsSub s (a ++ (s ++ b)) = true := by
  intro a
  induction a with
  | nil =>
    intro b
    cases s with
    | nil => cases b <;> simp [containsSub, isPrefixB]
    | cons c t =>
      simp only [List.nil_append, List.cons_append, containsSub]
      show (isPrefixB (c :: t) ((c :: t) ++ b) || containsSub (c :: t) (t ++ b)) = true
      rw [isPrefixB_self_append]
      simp
  | cons c a' ih =>
    intro b
    simp only [List.cons_append, containsSub]
    show (isPrefixB s (c :: (a' ++ (s ++ b))) || containsSub s (a' ++ (s ++ b))) = true
    rw [ih b]
    simp

/-- Every contributing content is a substring of the combined answer. -/
theorem contains_content_of_mem_valid (rs : List (Str × Payload))
    (p : Str × Str) (hp : p ∈ (aggregateState rs).valid) :
    containsSub p.2 (aggregateState rs).combined = true := by
  rw [valid_eq] at hp
  rw [combined_eq, textOf_eq_validOf]
  obtain ⟨s, t, hst⟩ := List.append_of_mem hp
  rw [hst, List.flatMap_append, List.flatMap_cons, List.append_assoc]
  exact containsSub_append p.2 _ _

/-- Claim C3 (amended): provided the results carry pairwise-distinct
document identifiers, every permutation of the arrival order yields the
same source map (pointwise-equal lookups) and a permuted `valid_results`
list, each of whose contents is a substring of its own combined answer —
only the concatenation order of the combined answer may differ.  (With
duplicate identifiers the map value at a colliding key depends on
arrival order; see the counterexample.) -/
theorem C3_order_invariance (rs₁ rs₂ : List (Str × Payload))
    (hperm : rs₁.Perm rs₂) (hnodup : (rs₁.map Prod.fst).Nodup) :
    (∀ k, dictGet (processResults rs₁).2 k = dictGet (processResults rs₂).2 k) ∧
    ((aggregateState rs₁).valid).Perm ((aggregateState rs₂).valid) ∧
    (∀ p ∈ (aggregateState rs₁).valid,
      containsSub p.2 (aggregateState rs₁).combined = true) ∧
    (∀ p ∈ (aggregateState rs₂).valid,
      containsSub p.2 (aggregateState rs₂).combined = true) := by
  refine ⟨?_, ?_, ?_, ?_⟩
  · intro k
    rw [dictGet_processResults, dictGet_processResults]
    exact lookupLast_flatEntries_perm hperm hnodup k
  · rw [valid_eq, valid_eq]
    exact hperm.flatMap_right resultValid
  · exact fun p hp => contains_content_of_mem_valid rs₁ p hp
  · exact fun p hp => contains_content_of_mem_valid rs₂ p hp

/-- Counterexample to C3 as stated: with two results sharing the same
document identifier (possible when the caller passes duplicate ids), a
permutation of arrival order changes the source-map value at the
colliding key. -/
theorem C3_counterexample :
    ([(['1'], [(⟨"See [doc1].".toList, [⟨['a']⟩]⟩ : Choice)]),
      (['1'], [(⟨"Per [doc1].".toList, [⟨['b']⟩]⟩ : Choice)])].Perm
     [(['1'], [(⟨"Per [doc1].".toList, [⟨['b']⟩]⟩ : Choice)]),
      (['1'], [(⟨"See [doc1].".toList, [⟨['a']⟩]⟩ : Choice)])]) ∧
    dictGet (processResults
        [(['1'], [⟨"See [doc1].".toList, [⟨['a']⟩]⟩]),
         (['1'], [⟨"Per [doc1].".toList, [⟨['b']⟩]⟩])]).2 (mkKey ['1'] 1) ≠
      dictGet (processResults
        [(['1'], [⟨"Per [doc1].".toList, [⟨['b']⟩]⟩]),
         (['1'], [⟨"See [doc1].".toList, [⟨['a']⟩]⟩])]).2 (mkKey ['1'] 1) := by
  refine ⟨List.Perm.swap _ _ _, by decide⟩

/-- Witness for C3 at two concrete distinct-identifier results. -/
theorem C3_witness :
    dictGet (processResults
        [(['1'], [⟨"Alpha [doc1].".toList, [⟨['a']⟩]⟩]),
         (['2'], [⟨"Beta [doc1].".toList, [⟨['b']⟩]⟩])]).2 (mkKey ['2'] 1) =
      dictGet (processResults
        [(['2'], [⟨"Beta [doc1].".toList, [⟨['b']⟩]⟩]),
         (['1'], [⟨"Alpha [doc1].".toList, [⟨['a']⟩]⟩])]).2 (mkKey ['2'] 1) ∧
    ((aggregateState
        [(['1'], [⟨"Alpha [doc1].".toList, [⟨['a']⟩]⟩]),
         (['2'], [⟨"Beta [doc1].".toList, [⟨['b']⟩]⟩])]).valid).Perm
      ((aggregateState
        [(['2'], [⟨"Beta [doc1].".toList, [⟨['b']⟩]⟩]),
         (['1'], [⟨"Alpha [doc1].".toList, [⟨['a']⟩]⟩])]).valid) ∧
    containsSub "Alpha [doc1].".toList
      (aggregateState
        [(['1'], [⟨"Alpha [doc1].".toList, [⟨['a']⟩]⟩]),
         (['2'], [⟨"Beta [doc1].".toList, [⟨['b']⟩]⟩])]).combined = true := by
  have h := C3_order_invariance
    [(['1'], [⟨"Alpha [doc1].".toList, [⟨['a']⟩]⟩]),
     (['2'], [⟨"Beta [doc1].".toList, [⟨['b']⟩]⟩])]
    [(['2'], [⟨"Beta [doc1].".toList, [⟨['b']⟩]⟩]),
     (['1'], [⟨"Alpha [doc1].".toList, [⟨['a']⟩]⟩])]
    (List.Perm.swap _ _ _) (by decide)
  exact ⟨h.1 (mkKey ['2'] 1), h.2.1,
    h.2.2.1 (['1'], "Alpha [doc1].".toList) (by decide)⟩

end IPMagiX
